import Mathlib

/-!
Verification development for the katana versioned storage schema (`tables/v0.rs`)
and the genesis `Builder` (`genesis/builder.rs`).

Shallow embedding conventions:
* bytes are `Nat` values below 256, byte strings are `List Nat`;
* Rust `u64` block numbers are `Nat` with an explicit `< 2 ^ 64` bound where it matters;
* fallible Rust functions returning `Result<_, CodecError>` become `Except CodecError _`;
* a Rust panic (e.g. an out-of-bounds slice index) is a distinct `Outcome.panic`
  constructor, separate from every `CodecError` value.
-/

set_option autoImplicit false

namespace KatanaDb

/-- Error taxonomy of the codec layer (`CodecError` in the source / spec section 7). -/
inductive CodecError where
  | invalidLength
  | corrupted
  | unexpectedEof
deriving DecidableEq, Repr

/-- Outcome of a fallible operation that may additionally panic.
`panic` models a Rust panic such as an out-of-range slice index, which is not a
`CodecError` and does not return to the caller. -/
inductive Outcome (α : Type) where
  | ok : α → Outcome α
  | err : CodecError → Outcome α
  | panic : Outcome α
deriving DecidableEq, Repr

/-- Big-endian fixed-width byte string of a natural number: `beBytes w n` is the
`w`-byte big-endian representation of `n % 256 ^ w` (the Rust `to_be_bytes` format,
spec section 6: fixed-width big-endian integers and field elements). -/
def beBytes : Nat → Nat → List Nat
  | 0, _ => []
  | w + 1, n => (n / 256 ^ w) % 256 :: beBytes w (n % 256 ^ w)

/-- Reads a big-endian byte string back into a natural number. -/
def fromBeBytes (bs : List Nat) : Nat :=
  bs.foldl (fun acc b => acc * 256 + b) 0

/-- Lexicographic strict comparison of byte strings, as Rust compares `&[u8]`. -/
def lexLt : List Nat → List Nat → Bool
  | [], [] => false
  | [], _ :: _ => true
  | _ :: _, [] => false
  | a :: as, b :: bs => if a < b then true else if b < a then false else lexLt as bs

/-- Modelled from the spec: the order-preserving `Encode` impl for `BlockNumber`
(a `u64`) is not under `src/`; spec section 6 fixes the format as the 8-byte
big-endian unsigned integer. -/
def encodeBlockNumber (n : Nat) : List Nat := beBytes 8 n

/-- Modelled from the spec: the `Compress` impl for `Vec<BlockNumber>` is not under
`src/`; per spec sections 4.1 and 6 the block-number sequence is stored as the
variable-length concatenation of the 8-byte big-endian encodings of its elements. -/
def compressBlockList (l : List Nat) : List Nat :=
  l.flatMap (fun n => beBytes 8 n)

/-- Modelled from the spec: the `Decompress` impl for `Vec<BlockNumber>` is not under
`src/`; it splits the buffer into consecutive 8-byte big-endian block numbers and
fails with `CodecError::UnexpectedEof` when the buffer is shorter than required
(spec sections 4.1 and 7). -/
def decompressBlockList : List Nat → Except CodecError (List Nat)
  | [] => .ok []
  | b0 :: b1 :: b2 :: b3 :: b4 :: b5 :: b6 :: b7 :: rest =>
    match decompressBlockList rest with
    | .ok l => .ok (fromBeBytes [b0, b1, b2, b3, b4, b5, b6, b7] :: l)
    | .error e => .error e
  | _ => .error .unexpectedEof

/-- The Starknet field prime: storage keys are field elements of this field. -/
def feltPrime : Nat := 2 ^ 251 + 17 * 2 ^ 192 + 1

/-- Modelled from the spec: the order-preserving `Encode` impl for `StorageKey`
(a 32-byte field element) is not under `src/`; spec sections 3 and 6 fix the
format as the canonical 32-byte big-endian encoding. -/
def encodeStorageKey (k : Nat) : List Nat := beBytes 32 k

/-- Modelled from the spec: the `Decode` impl for `StorageKey` is not under `src/`;
per spec section 4.1 it fails with `CodecError::InvalidLength` when the input is
not exactly 32 bytes and with `CodecError::Corrupted` when the bytes are not a
valid (in-range) field element. -/
def decodeStorageKey (bs : List Nat) : Except CodecError Nat :=
  if bs.length = 32 then
    let v := fromBeBytes bs
    if v < feltPrime then .ok v else .error .corrupted
  else .error .invalidLength

/-- The `StorageEntryChangeList` value type of the `StorageChangeSet` dupsort table
(`tables/v0.rs`): a storage key together with the list of block numbers at which
the slot changed. -/
structure StorageEntryChangeList where
  key : Nat
  block_list : List Nat
deriving DecidableEq, Repr

/-- The `Compress` impl for `StorageEntryChangeList` (`tables/v0.rs`): the encoded
storage key followed by the compressed block list. -/
def StorageEntryChangeList.compress (x : StorageEntryChangeList) : List Nat :=
  encodeStorageKey x.key ++ compressBlockList x.block_list

/-- The `Decompress` impl for `StorageEntryChangeList` (`tables/v0.rs`). The Rust
code takes the slices `&bytes[0..32]` and `&bytes[32..]`; when the input holds
fewer than 32 bytes the first slice expression panics (range out of bounds), which
the embedding records as `Outcome.panic`. -/
def StorageEntryChangeList.decompress (bytes : List Nat) :
    Outcome StorageEntryChangeList :=
  if bytes.length < 32 then .panic
  else
    match decodeStorageKey (bytes.take 32) with
    | .error e => .err e
    | .ok key =>
      match decompressBlockList (bytes.drop 32) with
      | .error e => .err e
      | .ok blocks => .ok ⟨key, blocks⟩

/-- Declaration of one logical table of the schema: its stable name string,
its key type and its value type (described by name), and whether it is a
dupsort table (spec section 4.2). -/
structure TableDecl where
  name : String
  keyType : String
  valueType : String
  dupsort : Bool
deriving DecidableEq, Repr

/-- Modelled from the spec for the name convention only: the `tables!` macro
itself is not under `src/`, but its invocation in `tables/v0.rs` is, and per
spec sections 4.2 and 6 each declared table exposes its identifier as its stable
name string. The four declarations below transcribe the `tables!` invocation of
`tables/v0.rs` lines 17-27. -/
def v0Tables : List TableDecl :=
  [ ⟨"NonceChanges", "(BlockNumber, ContractAddress)", "ContractNonceChange", false⟩,
    ⟨"ContractClassChanges", "(BlockNumber, ContractAddress)", "ContractClassChange", false⟩,
    ⟨"StorageChangeSet", "(ContractAddress, StorageKey)", "StorageEntryChangeList", true⟩,
    ⟨"StorageChanges", "(BlockNumber, ContractStorageKey)", "ContractStorageEntry", false⟩ ]

end KatanaDb

namespace KatanaGenesis

/-- Class hashes are field elements; the embedding leaves them as naturals. -/
abbrev ClassHash := Nat

/-- Contract addresses are field elements; the embedding leaves them as naturals. -/
abbrev ContractAddress := Nat

/-- The parsed class payload (`GenesisClass`); its internal structure is irrelevant
to the builder logic, so the embedding leaves it opaque as a natural. -/
abbrev GenesisClass := Nat

/-- Opaque payload of a `GenesisJsonError` (class-artifact parsing error). -/
abbrev GenesisJsonError := Nat

/-- A genesis allocation (`GenesisAllocation`): the only field the builder
inspects is its optional class hash (`alloc.class_hash()`). -/
structure GenesisAllocation where
  class_hash : Option ClassHash
deriving DecidableEq, Repr

/-- The builder's `HashMap<ClassHash, GenesisClass>` embedded as an association
list in which the first binding of a hash is the one `get` observes. -/
abbrev ClassMap := List (ClassHash × GenesisClass)

/-- Hash-map lookup: the first binding of the hash, if any. -/
def lookupClass (m : ClassMap) (h : ClassHash) : Option GenesisClass :=
  match m with
  | [] => none
  | (h2, c) :: rest => if h2 = h then some c else lookupClass rest h

/-- Hash-map membership test (`HashMap::contains_key`). -/
def containsClass (m : ClassMap) (h : ClassHash) : Bool :=
  match m with
  | [] => false
  | (h2, _) :: rest => h2 = h || containsClass rest h

/-- The `HashMap` entry API used by `Builder::build`:
`classes.entry(hash).or_insert(class)` inserts the binding only when the hash is
absent and leaves the map unchanged otherwise. -/
def orInsert (m : ClassMap) (h : ClassHash) (c : GenesisClass) : ClassMap :=
  if containsClass m h then m else m ++ [(h, c)]

/-- Modelled from the spec: a raw class artifact is the pair
`(serde_json::Value, Option<ClassHash>)` fed to `parse_genesis_class_artifacts`,
a function not under `src/`; the artifact is represented by that parse's result,
which is all the builder observes of it (spec sections 6 and 7: class artifacts
are parsed at build time and parsing errors surface to the caller). -/
abbrev RawClass := Except GenesisJsonError (ClassHash × GenesisClass)

deriving instance DecidableEq for Except

/-- The error type of the genesis builder (`GenesisBuilderError` in
`genesis/builder.rs`). -/
inductive GenesisBuilderError where
  | parentHashNotSet
  | stateRootNotSet
  | timestampNotSet
  | numberNotSet
  | sequencerAddressNotSet
  | l1GasPricesNotSet
  | feeTokenNotSet
  | unknownClassHash (contract : ContractAddress) (class_hash : ClassHash)
  | classParsingError (e : GenesisJsonError)
  | missingClassHash
deriving DecidableEq, Repr

/-- The genesis builder state (`Builder` in `genesis/builder.rs`). Field values
whose internal structure the builder never inspects (block hash, state root,
gas prices, fee token, universal deployer config, timestamps) are opaque naturals.
The `BTreeMap` of allocations is embedded as its ascending iteration sequence. -/
structure Builder where
  parent_hash : Option Nat
  state_root : Option Nat
  number : Option Nat
  timestamp : Option Nat
  sequencer_address : Option Nat
  gas_prices : Option Nat
  fee_token : Option Nat
  udc : Option Nat
  raw_classes : List RawClass
  allocations : List (ContractAddress × GenesisAllocation)
  classes : ClassMap
deriving DecidableEq, Repr

/-- The validated genesis value (`Genesis`), with the same opaque-field
conventions as `Builder`. -/
structure Genesis where
  parent_hash : Nat
  state_root : Nat
  number : Nat
  timestamp : Nat
  sequencer_address : Nat
  gas_prices : Nat
  fee_token : Nat
  universal_deployer : Option Nat
  classes : ClassMap
  allocations : List (ContractAddress × GenesisAllocation)
deriving DecidableEq, Repr

/-- The first loop of `Builder::build`: parse every raw class artifact in order,
stopping at the first parse error, and fold each parsed class into the class map
with `entry(hash).or_insert(class)`. -/
def parseClasses (m : ClassMap) : List RawClass → Except GenesisBuilderError ClassMap
  | [] => .ok m
  | rc :: rest =>
    match rc with
    | .error e => .error (.classParsingError e)
    | .ok (h, c) => parseClasses (orInsert m h c) rest

/-- The second loop of `Builder::build`: for each allocation in iteration order,
fail with `MissingClassHash` when it carries no class hash, and with
`UnknownClassHash` when its class hash is absent from the class map. -/
def checkAllocs (classes : ClassMap) :
    List (ContractAddress × GenesisAllocation) → Except GenesisBuilderError Unit
  | [] => .ok ()
  | (addr, alloc) :: rest =>
    match alloc.class_hash with
    | none => .error .missingClassHash
    | some h =>
      if containsClass classes h then checkAllocs classes rest
      else .error (.unknownClassHash addr h)

/-- The tail of `Builder::build` (`genesis/builder.rs` lines 133-152): require each
field in the source's order — parent hash, state root, number, timestamp, sequencer
address, fee token, gas prices — and assemble the `Genesis` from them, the already
validated class map and the allocations. -/
def buildFields (b : Builder) (classes : ClassMap) : Except GenesisBuilderError Genesis :=
  match b.parent_hash with
  | none => .error .parentHashNotSet
  | some parent_hash =>
    match b.state_root with
    | none => .error .stateRootNotSet
    | some state_root =>
      match b.number with
      | none => .error .numberNotSet
      | some number =>
        match b.timestamp with
        | none => .error .timestampNotSet
        | some timestamp =>
          match b.sequencer_address with
          | none => .error .sequencerAddressNotSet
          | some seq_addr =>
            match b.fee_token with
            | none => .error .feeTokenNotSet
            | some fee_token =>
              match b.gas_prices with
              | none => .error .l1GasPricesNotSet
              | some gas_prices =>
                .ok ⟨parent_hash, state_root, number, timestamp, seq_addr,
                     gas_prices, fee_token, b.udc, classes, b.allocations⟩

/-- `Builder::build` (`genesis/builder.rs` lines 117-153): parse classes, validate
allocations, then require each field in the source's order, producing the `Genesis`
only when every step succeeds. -/
def Builder.build (b : Builder) : Except GenesisBuilderError Genesis :=
  match parseClasses b.classes b.raw_classes with
  | .error e => .error e
  | .ok classes =>
    match checkAllocs classes b.allocations with
    | .error e => .error e
    | .ok () => buildFields b classes

/-- The `From<Genesis> for Builder` conversion (`genesis/builder.rs` lines 156-172). -/
def Builder.fromGenesis (g : Genesis) : Builder :=
  { parent_hash := some g.parent_hash
    state_root := some g.state_root
    number := some g.number
    timestamp := some g.timestamp
    sequencer_address := some g.sequencer_address
    gas_prices := some g.gas_prices
    fee_token := some g.fee_token
    udc := g.universal_deployer
    raw_classes := []
    allocations := g.allocations
    classes := g.classes }

/-- Concrete builder with every block field set, no raw classes, an empty class
map, and two allocations in ascending address order: address 1 carries no class
hash at all, address 2 carries class hash 9, which is absent from the class map. -/
def builderMissingThenUnknown : Builder :=
  { parent_hash := some 0, state_root := some 0, number := some 0, timestamp := some 0
    sequencer_address := some 0, gas_prices := some 0, fee_token := some 0, udc := none
    raw_classes := [], allocations := [(1, ⟨none⟩), (2, ⟨some 9⟩)], classes := [] }

/-- Concrete builder with every block field set, no raw classes, an empty class
map, and a single allocation at address 2 carrying class hash 9, which is absent
from the class map. -/
def builderUnknownOnly : Builder :=
  { parent_hash := some 0, state_root := some 0, number := some 0, timestamp := some 0
    sequencer_address := some 0, gas_prices := some 0, fee_token := some 0, udc := none
    raw_classes := [], allocations := [(2, ⟨some 9⟩)], classes := [] }

/-- Concrete builder with every block field set, one raw class artifact that
parses to class hash 7, and one allocation referencing class hash 7. -/
def builderComplete : Builder :=
  { parent_hash := some 0, state_root := some 0, number := some 0, timestamp := some 0
    sequencer_address := some 0, gas_prices := some 0, fee_token := some 0, udc := none
    raw_classes := [.ok (7, 1)], allocations := [(1, ⟨some 7⟩)], classes := [] }

/-- Concrete genesis whose single allocation references class hash 7, which is
present in its class map. -/
def genesisExample : Genesis :=
  { parent_hash := 0, state_root := 0, number := 0, timestamp := 0
    sequencer_address := 0, gas_prices := 0, fee_token := 0, universal_deployer := none
    classes := [(7, 1)], allocations := [(2, ⟨some 7⟩)] }

end KatanaGenesis

namespace KatanaTracker

/-- Modelled from the spec: the Change-Set Tracker's per-slot `ChangeList` update
(spec section 4.4, steps 2-4) is not under `src/`. Given the slot's current block
list (absent means empty) and the block being committed: when the list's last
element already equals the block the list is unchanged; otherwise the block must
be strictly greater than the last element — a violation is a hard fault, embedded
as `none` — and the block is appended. -/
def commitBlock (l : List Nat) (b : Nat) : Option (List Nat) :=
  match l.getLast? with
  | none => some [b]
  | some last =>
    if last = b then some l
    else if last < b then some (l ++ [b])
    else none

/-- Runs a sequence of commits for one slot starting from the given list,
propagating the hard fault. -/
def commitSeqFrom (l : List Nat) : List Nat → Option (List Nat)
  | [] => some l
  | b :: bs =>
    match commitBlock l b with
    | none => none
    | some l2 => commitSeqFrom l2 bs

/-- Runs a sequence of commits for one slot starting from the empty change list. -/
def commitSeq (bs : List Nat) : Option (List Nat) :=
  commitSeqFrom [] bs

end KatanaTracker

namespace KatanaDb

theorem beBytes_length (w : Nat) : ∀ n, (beBytes w n).length = w := by
  induction w with
  | zero => intro n; rfl
  | succ w ih => intro n; simp [beBytes, ih]

theorem foldl_beBytes (w : Nat) :
    ∀ n a, n < 256 ^ w →
      (beBytes w n).foldl (fun acc b => acc * 256 + b) a = a * 256 ^ w + n := by
  induction w with
  | zero =>
    intro n a h
    have hn : n = 0 := by omega
    simp [beBytes, hn]
  | succ w ih =>
    intro n a h
    have hd : 0 < 256 ^ w := Nat.pos_pow_of_pos w (by norm_num)
    have hda : n / 256 ^ w < 256 := by
      apply Nat.div_lt_of_lt_mul
      rw [← pow_succ]
      exact h
    simp only [beBytes, List.foldl_cons]
    rw [Nat.mod_eq_of_lt hda, ih (n % 256 ^ w) _ (Nat.mod_lt _ hd)]
    calc (a * 256 + n / 256 ^ w) * 256 ^ w + n % 256 ^ w
        = a * 256 ^ (w + 1) + (256 ^ w * (n / 256 ^ w) + n % 256 ^ w) := by ring
      _ = a * 256 ^ (w + 1) + n := by rw [Nat.div_add_mod]

theorem fromBeBytes_beBytes (w n : Nat) (h : n < 256 ^ w) :
    fromBeBytes (beBytes w n) = n := by
  unfold fromBeBytes
  rw [foldl_beBytes w n 0 h]
  ring

theorem lexLt_beBytes (w : Nat) :
    ∀ a b, a < 256 ^ w → b < 256 ^ w →
      (lexLt (beBytes w a) (beBytes w b) = true ↔ a < b) := by
  induction w with
  | zero =>
    intro a b ha hb
    rw [pow_zero] at ha hb
    simp only [beBytes, lexLt, Bool.false_eq_true, false_iff]
    omega
  | succ w ih =>
    intro a b ha hb
    have hd : 0 < 256 ^ w := Nat.pos_pow_of_pos w (by norm_num)
    have hda : a / 256 ^ w < 256 := by
      apply Nat.div_lt_of_lt_mul
      rw [← pow_succ]
      exact ha
    have hdb : b / 256 ^ w < 256 := by
      apply Nat.div_lt_of_lt_mul
      rw [← pow_succ]
      exact hb
    simp only [beBytes, Nat.mod_eq_of_lt hda, Nat.mod_eq_of_lt hdb, lexLt]
    by_cases h1 : a / 256 ^ w < b / 256 ^ w
    · simp only [if_pos h1, true_iff]
      exact Nat.lt_of_div_lt_div h1
    · by_cases h2 : b / 256 ^ w < a / 256 ^ w
      · simp only [if_neg h1, if_pos h2, Bool.false_eq_true, false_iff]
        intro hab
        exact absurd (Nat.lt_of_div_lt_div h2) (by omega)
      · have heq : a / 256 ^ w = b / 256 ^ w := by omega
        simp only [if_neg h1, if_neg h2]
        rw [ih (a % 256 ^ w) (b % 256 ^ w) (Nat.mod_lt _ hd) (Nat.mod_lt _ hd)]
        have e1 := Nat.div_add_mod a (256 ^ w)
        have e2 := Nat.div_add_mod b (256 ^ w)
        rw [heq] at e1
        generalize hx : 256 ^ w * (b / 256 ^ w) = x at e1 e2
        generalize hra : a % 256 ^ w = ra at e1 ⊢
        generalize hrb : b % 256 ^ w = rb at e2 ⊢
        omega

theorem decompressBlockList_append8 (c rest : List Nat) (hc : c.length = 8) :
    decompressBlockList (c ++ rest) =
      match decompressBlockList rest with
      | .ok l => .ok (fromBeBytes c :: l)
      | .error e => .error e := by
  rcases c with _ | ⟨c0, _ | ⟨c1, _ | ⟨c2, _ | ⟨c3, _ | ⟨c4, _ | ⟨c5, _ | ⟨c6, _ |
    ⟨c7, _ | ⟨c8, t⟩⟩⟩⟩⟩⟩⟩⟩⟩ <;>
      simp only [List.length_cons, List.length_nil] at hc <;> try omega
  simp [decompressBlockList]

theorem decompressBlockList_compressBlockList (l : List Nat)
    (h : ∀ n ∈ l, n < 2 ^ 64) :
    decompressBlockList (compressBlockList l) = .ok l := by
  induction l with
  | nil => rfl
  | cons n rest ih =>
    have hmem : n < 2 ^ 64 := h n (by simp)
    have hrest : ∀ m ∈ rest, m < 2 ^ 64 := fun m hm => h m (by simp [hm])
    have hsplit : compressBlockList (n :: rest) = beBytes 8 n ++ compressBlockList rest := by
      simp [compressBlockList]
    rw [hsplit, decompressBlockList_append8 _ _ (beBytes_length 8 n), ih hrest]
    rw [fromBeBytes_beBytes 8 n (by norm_num at hmem ⊢; omega)]

theorem feltPrime_lt : feltPrime < 256 ^ 32 := by
  unfold feltPrime
  norm_num

theorem decodeStorageKey_encodeStorageKey (k : Nat) (hk : k < feltPrime) :
    decodeStorageKey (encodeStorageKey k) = .ok k := by
  unfold decodeStorageKey encodeStorageKey
  have hlen : (beBytes 32 k).length = 32 := beBytes_length 32 k
  have hlt : k < 256 ^ 32 := lt_trans hk feltPrime_lt
  rw [if_pos hlen]
  simp only [fromBeBytes_beBytes 32 k hlt]
  rw [if_pos hk]

end KatanaDb

namespace KatanaDb

/-- Claim C1: the claim states that `StorageEntryChangeList::decompress` on any
input shorter than 32 bytes returns `CodecError::InvalidLength` without panicking.
The code instead evaluates the slice `&bytes[0..32]`, which panics (range out of
bounds) whenever the input holds fewer than 32 bytes, so decompression of every
short input ends in a panic and never produces any `CodecError` value. -/
theorem decompress_short_input_panics (bytes : List Nat) (h : bytes.length < 32) :
    StorageEntryChangeList.decompress bytes = .panic ∧
      ∀ e : CodecError, StorageEntryChangeList.decompress bytes ≠ .err e := by
  unfold StorageEntryChangeList.decompress
  rw [if_pos h]
  exact ⟨rfl, fun e he => by cases he⟩

/-- Witness for C1 at the concrete failing input: the empty byte string is
shorter than 32 bytes, decompressing it panics, and in particular the result is
not the error `CodecError::InvalidLength`. -/
theorem decompress_short_input_panics_witness :
    StorageEntryChangeList.decompress [] = .panic ∧
      StorageEntryChangeList.decompress [] ≠ .err .invalidLength :=
  ⟨(decompress_short_input_panics [] (by decide)).1,
   (decompress_short_input_panics [] (by decide)).2 .invalidLength⟩

/-- Claim C3: `compress` of a `StorageEntryChangeList` is exactly the 32-byte
order-preserving encoding of its storage key followed by the variable-length
compression of its block-number list; in particular the first 32 bytes of the
output are `encode(key)`. -/
theorem compress_layout (x : StorageEntryChangeList) :
    x.compress = encodeStorageKey x.key ++ compressBlockList x.block_list ∧
      (encodeStorageKey x.key).length = 32 ∧
      x.compress.take 32 = encodeStorageKey x.key := by
  refine ⟨rfl, beBytes_length 32 x.key, ?_⟩
  show (encodeStorageKey x.key ++ compressBlockList x.block_list).take 32 = _
  rw [← beBytes_length 32 x.key]
  exact List.take_left _ _

/-- Claim C2: decompressing the compression of any valid `StorageEntryChangeList`
(its key a field element, its block numbers `u64` values) returns exactly the
original value. -/
theorem decompress_compress_roundtrip (x : StorageEntryChangeList)
    (hk : x.key < feltPrime) (hb : ∀ n ∈ x.block_list, n < 2 ^ 64) :
    StorageEntryChangeList.decompress x.compress = .ok x := by
  unfold StorageEntryChangeList.decompress
  have hkey : (encodeStorageKey x.key).length = 32 := beBytes_length 32 x.key
  have hform : x.compress = encodeStorageKey x.key ++ compressBlockList x.block_list := rfl
  have hlen : ¬ x.compress.length < 32 := by
    rw [hform, List.length_append, hkey]
    omega
  rw [if_neg hlen]
  have htake : x.compress.take 32 = encodeStorageKey x.key := (compress_layout x).2.2
  have hdrop : x.compress.drop 32 = compressBlockList x.block_list := by
    rw [hform, ← hkey]
    exact List.drop_left _ _
  rw [htake, hdrop, decodeStorageKey_encodeStorageKey x.key hk,
    decompressBlockList_compressBlockList x.block_list hb]

/-- Witness for C2 at a concrete valid value: key 5 with block list `[1, 2]`
round-trips through compress and decompress. -/
theorem decompress_compress_roundtrip_witness :
    StorageEntryChangeList.decompress (StorageEntryChangeList.compress ⟨5, [1, 2]⟩) =
      .ok ⟨5, [1, 2]⟩ :=
  decompress_compress_roundtrip ⟨5, [1, 2]⟩ (by decide) (by decide)

/-- Claim C7: the block-number encoding is the 8-byte big-endian representation,
and it is order-preserving: for `u64` values `a` and `b`, `a < b` numerically
exactly when `encode(a)` precedes `encode(b)` in lexicographic byte order. -/
theorem encodeBlockNumber_order_preserving (a b : Nat)
    (ha : a < 2 ^ 64) (hb : b < 2 ^ 64) :
    (encodeBlockNumber a).length = 8 ∧ (encodeBlockNumber b).length = 8 ∧
      (lexLt (encodeBlockNumber a) (encodeBlockNumber b) = true ↔ a < b) := by
  have ha2 : a < 256 ^ 8 := by norm_num at ha ⊢; omega
  have hb2 : b < 256 ^ 8 := by norm_num at hb ⊢; omega
  exact ⟨beBytes_length 8 a, beBytes_length 8 b, lexLt_beBytes 8 a b ha2 hb2⟩

/-- Witness for C7 at concrete block numbers 3 and 5: both encodings are 8 bytes
and the encoding of 3 lexicographically precedes that of 5. -/
theorem encodeBlockNumber_order_preserving_witness :
    (encodeBlockNumber 3).length = 8 ∧ (encodeBlockNumber 5).length = 8 ∧
      (lexLt (encodeBlockNumber 3) (encodeBlockNumber 5) = true ↔ (3 : Nat) < 5) :=
  encodeBlockNumber_order_preserving 3 5 (by decide) (by decide)

end KatanaDb

namespace KatanaGenesis

theorem lookupClass_append_left :
    ∀ (m l : ClassMap) (h : ClassHash) (c : GenesisClass),
      lookupClass m h = some c → lookupClass (m ++ l) h = some c := by
  intro m l h c
  induction m with
  | nil => intro hl; simp [lookupClass] at hl
  | cons p rest ih =>
    obtain ⟨h2, c2⟩ := p
    intro hl
    by_cases he : h2 = h
    · simp only [lookupClass, if_pos he] at hl
      simp [lookupClass, if_pos he, hl]
    · simp only [lookupClass, if_neg he] at hl
      simp only [List.cons_append, lookupClass, if_neg he]
      exact ih hl

theorem lookupClass_orInsert (m : ClassMap) (hh h : ClassHash) (c c2 : GenesisClass)
    (hl : lookupClass m h = some c2) :
    lookupClass (orInsert m hh c) h = some c2 := by
  unfold orInsert
  by_cases hc : containsClass m hh = true
  · rw [if_pos hc]; exact hl
  · rw [if_neg hc]; exact lookupClass_append_left m [(hh, c)] h c2 hl

theorem parseClasses_ok_iff :
    ∀ (rcs : List RawClass) (m : ClassMap),
      (∃ m2, parseClasses m rcs = .ok m2) ↔ ∀ rc ∈ rcs, Except.isOk rc = true := by
  intro rcs
  induction rcs with
  | nil => intro m; simp [parseClasses]
  | cons rc rest ih =>
    intro m
    cases rc with
    | error e => simp [parseClasses, Except.isOk, Except.toBool]
    | ok pr =>
      obtain ⟨hh, c⟩ := pr
      simp [parseClasses, Except.isOk, Except.toBool, ih (orInsert m hh c)]

theorem parseClasses_preserves :
    ∀ (rcs : List RawClass) (m : ClassMap),
      (∀ rc ∈ rcs, Except.isOk rc = true) →
      ∃ m2, parseClasses m rcs = .ok m2 ∧
        ∀ h c, lookupClass m h = some c → lookupClass m2 h = some c := by
  intro rcs
  induction rcs with
  | nil => intro m _; exact ⟨m, rfl, fun _ _ hl => hl⟩
  | cons rc rest ih =>
    intro m hok
    cases rc with
    | error e =>
      have := hok _ (List.mem_cons_self _ _)
      simp [Except.isOk, Except.toBool] at this
    | ok pr =>
      obtain ⟨hh, c⟩ := pr
      obtain ⟨m2, hm2, hpres⟩ :=
        ih (orInsert m hh c) (fun r hr => hok r (List.mem_cons_of_mem _ hr))
      refine ⟨m2, by simpa [parseClasses] using hm2, fun h2 c2 hl => ?_⟩
      exact hpres h2 c2 (lookupClass_orInsert m hh h2 c c2 hl)

theorem checkAllocs_ok_iff (cm : ClassMap) :
    ∀ l : List (ContractAddress × GenesisAllocation),
      checkAllocs cm l = .ok () ↔
        ∀ p ∈ l, ∃ hh, (p.2).class_hash = some hh ∧ containsClass cm hh = true := by
  intro l
  induction l with
  | nil => simp [checkAllocs]
  | cons p rest ih =>
    obtain ⟨addr, alloc⟩ := p
    cases halloc : alloc.class_hash with
    | none => simp [checkAllocs, halloc]
    | some hh =>
      by_cases hc : containsClass cm hh = true
      · simp [checkAllocs, halloc, hc, ih]
      · have hcf : containsClass cm hh = false := by simpa using hc
        simp [checkAllocs, halloc, hcf]

theorem checkAllocs_error_shape (cm : ClassMap) :
    ∀ (l : List (ContractAddress × GenesisAllocation)) (e : GenesisBuilderError),
      checkAllocs cm l = .error e →
      e = .missingClassHash ∨ ∃ a hh, e = .unknownClassHash a hh := by
  intro l
  induction l with
  | nil => intro e he; simp [checkAllocs] at he
  | cons p rest ih =>
    intro e he
    obtain ⟨addr, alloc⟩ := p
    cases halloc : alloc.class_hash with
    | none =>
      simp [checkAllocs, halloc] at he
      exact Or.inl he.symm
    | some hh =>
      by_cases hc : containsClass cm hh = true
      · simp only [checkAllocs, halloc, hc, if_true] at he
        exact ih e he
      · have hcf : containsClass cm hh = false := by simpa using hc
        simp [checkAllocs, halloc, hcf] at he
        exact Or.inr ⟨addr, hh, he.symm⟩

theorem checkAllocs_unknown (cm : ClassMap) :
    ∀ l : List (ContractAddress × GenesisAllocation),
      (∀ p ∈ l, (p.2).class_hash.isSome = true) →
      (∃ p ∈ l, ∃ hh, (p.2).class_hash = some hh ∧ containsClass cm hh = false) →
      ∃ a hh, (∃ al, (a, al) ∈ l ∧ al.class_hash = some hh) ∧
        containsClass cm hh = false ∧
        checkAllocs cm l = .error (.unknownClassHash a hh) := by
  intro l
  induction l with
  | nil => intro _ hbad; simp at hbad
  | cons p rest ih =>
    intro hall hbad
    obtain ⟨addr, alloc⟩ := p
    have hsome : alloc.class_hash.isSome = true := hall (addr, alloc) (List.mem_cons_self _ _)
    obtain ⟨hh, hhh⟩ := Option.isSome_iff_exists.mp hsome
    by_cases hc : containsClass cm hh = true
    · have hbad2 : ∃ p ∈ rest, ∃ hh2, (p.2).class_hash = some hh2 ∧
          containsClass cm hh2 = false := by
        obtain ⟨q, hq, hh2, hq2, hq3⟩ := hbad
        cases List.mem_cons.mp hq with
        | inl heq =>
          subst heq
          rw [hhh] at hq2
          cases hq2
          rw [hc] at hq3
          cases hq3
        | inr hmem => exact ⟨q, hmem, hh2, hq2, hq3⟩
      obtain ⟨a, hh2, ⟨al, hal, hal2⟩, hcf, hck⟩ :=
        ih (fun q hq => hall q (List.mem_cons_of_mem _ hq)) hbad2
      refine ⟨a, hh2, ⟨al, List.mem_cons_of_mem _ hal, hal2⟩, hcf, ?_⟩
      simp [checkAllocs, hhh, hc, hck]
    · have hcf : containsClass cm hh = false := by simpa using hc
      refine ⟨addr, hh, ⟨alloc, List.mem_cons_self _ _, hhh⟩, hcf, ?_⟩
      simp [checkAllocs, hhh, hcf]

theorem buildFields_ok_iff (b : Builder) (cm : ClassMap) :
    (∃ g, buildFields b cm = .ok g) ↔
      (b.parent_hash.isSome = true ∧ b.state_root.isSome = true ∧
       b.number.isSome = true ∧ b.timestamp.isSome = true ∧
       b.sequencer_address.isSome = true ∧ b.fee_token.isSome = true ∧
       b.gas_prices.isSome = true) := by
  constructor
  · rintro ⟨g, hg⟩
    unfold buildFields at hg
    cases hph : b.parent_hash with
    | none => rw [hph] at hg; exact Except.noConfusion hg
    | some ph =>
    rw [hph] at hg
    cases hsr : b.state_root with
    | none => rw [hsr] at hg; exact Except.noConfusion hg
    | some sr =>
    rw [hsr] at hg
    cases hnr : b.number with
    | none => rw [hnr] at hg; exact Except.noConfusion hg
    | some nr =>
    rw [hnr] at hg
    cases hts : b.timestamp with
    | none => rw [hts] at hg; exact Except.noConfusion hg
    | some ts =>
    rw [hts] at hg
    cases hsa : b.sequencer_address with
    | none => rw [hsa] at hg; exact Except.noConfusion hg
    | some sa =>
    rw [hsa] at hg
    cases hft : b.fee_token with
    | none => rw [hft] at hg; exact Except.noConfusion hg
    | some ft =>
    rw [hft] at hg
    cases hgp : b.gas_prices with
    | none => rw [hgp] at hg; exact Except.noConfusion hg
    | some gp =>
    simp [hph, hsr, hnr, hts, hsa, hft, hgp]
  · rintro ⟨h1, h2, h3, h4, h5, h6, h7⟩
    obtain ⟨ph, hph⟩ := Option.isSome_iff_exists.mp h1
    obtain ⟨sr, hsr⟩ := Option.isSome_iff_exists.mp h2
    obtain ⟨nr, hnr⟩ := Option.isSome_iff_exists.mp h3
    obtain ⟨ts, hts⟩ := Option.isSome_iff_exists.mp h4
    obtain ⟨sa, hsa⟩ := Option.isSome_iff_exists.mp h5
    obtain ⟨ft, hft⟩ := Option.isSome_iff_exists.mp h6
    obtain ⟨gp, hgp⟩ := Option.isSome_iff_exists.mp h7
    exact ⟨_, by unfold buildFields; rw [hph, hsr, hnr, hts, hsa, hft, hgp]⟩

theorem build_eq_parse_error (b : Builder) (e : GenesisBuilderError)
    (hp : parseClasses b.classes b.raw_classes = .error e) : b.build = .error e := by
  unfold Builder.build
  rw [hp]

theorem build_eq_check_error (b : Builder) (cm : ClassMap) (e : GenesisBuilderError)
    (hp : parseClasses b.classes b.raw_classes = .ok cm)
    (hc : checkAllocs cm b.allocations = .error e) : b.build = .error e := by
  simp [Builder.build, hp, hc]

theorem build_eq_fields (b : Builder) (cm : ClassMap)
    (hp : parseClasses b.classes b.raw_classes = .ok cm)
    (hc : checkAllocs cm b.allocations = .ok ()) : b.build = buildFields b cm := by
  simp [Builder.build, hp, hc]

/-- Claim C5: `Builder::build` returns a `Genesis` exactly when every raw class
artifact parses, every allocation carries a class hash present in the parsed
class set, and each of the seven required block fields is set; an error return
never also produces a `Genesis`; a hash-less allocation surfaces as
`MissingClassHash` or, when an allocation with an unknown hash precedes it, as
`UnknownClassHash`; and when the class checks pass, each unset field surfaces as
its own `*NotSet` error, checked in the order parent hash, state root, number,
timestamp, sequencer address, fee token, gas prices. -/
theorem build_ok_characterization (b : Builder) :
    ((∃ g, b.build = .ok g) ↔
      ((∀ rc ∈ b.raw_classes, Except.isOk rc = true) ∧
       (∀ cm, parseClasses b.classes b.raw_classes = .ok cm →
          ∀ p ∈ b.allocations,
            ∃ hh, (p.2).class_hash = some hh ∧ containsClass cm hh = true) ∧
       b.parent_hash.isSome = true ∧ b.state_root.isSome = true ∧
       b.number.isSome = true ∧ b.timestamp.isSome = true ∧
       b.sequencer_address.isSome = true ∧ b.fee_token.isSome = true ∧
       b.gas_prices.isSome = true)) ∧
    (∀ e, b.build = .error e → ∀ g, b.build ≠ .ok g) ∧
    (∀ cm, parseClasses b.classes b.raw_classes = .ok cm →
      ∀ p ∈ b.allocations, (p.2).class_hash = none →
        b.build = .error .missingClassHash ∨
          ∃ a hh, b.build = .error (.unknownClassHash a hh)) ∧
    (∀ cm, parseClasses b.classes b.raw_classes = .ok cm →
      checkAllocs cm b.allocations = .ok () →
      ((b.parent_hash = none → b.build = .error .parentHashNotSet) ∧
       (b.parent_hash.isSome = true → b.state_root = none →
          b.build = .error .stateRootNotSet) ∧
       (b.parent_hash.isSome = true → b.state_root.isSome = true →
          b.number = none → b.build = .error .numberNotSet) ∧
       (b.parent_hash.isSome = true → b.state_root.isSome = true →
          b.number.isSome = true → b.timestamp = none →
          b.build = .error .timestampNotSet) ∧
       (b.parent_hash.isSome = true → b.state_root.isSome = true →
          b.number.isSome = true → b.timestamp.isSome = true →
          b.sequencer_address = none → b.build = .error .sequencerAddressNotSet) ∧
       (b.parent_hash.isSome = true → b.state_root.isSome = true →
          b.number.isSome = true → b.timestamp.isSome = true →
          b.sequencer_address.isSome = true → b.fee_token = none →
          b.build = .error .feeTokenNotSet) ∧
       (b.parent_hash.isSome = true → b.state_root.isSome = true →
          b.number.isSome = true → b.timestamp.isSome = true →
          b.sequencer_address.isSome = true → b.fee_token.isSome = true →
          b.gas_prices = none → b.build = .error .l1GasPricesNotSet))) := by
  refine ⟨⟨?_, ?_⟩, ?_, ?_, ?_⟩
  · rintro ⟨g, hg⟩
    cases hpp : parseClasses b.classes b.raw_classes with
    | error e =>
      rw [build_eq_parse_error b e hpp] at hg
      exact Except.noConfusion hg
    | ok cm =>
      cases hcc : checkAllocs cm b.allocations with
      | error e =>
        rw [build_eq_check_error b cm e hpp hcc] at hg
        exact Except.noConfusion hg
      | ok u =>
        cases u
        rw [build_eq_fields b cm hpp hcc] at hg
        obtain ⟨h1, h2, h3, h4, h5, h6, h7⟩ := (buildFields_ok_iff b cm).mp ⟨g, hg⟩
        refine ⟨(parseClasses_ok_iff b.raw_classes b.classes).mp ⟨cm, hpp⟩, ?_,
          h1, h2, h3, h4, h5, h6, h7⟩
        intro cm2 hcm2
        injection hcm2 with he
        subst he
        exact (checkAllocs_ok_iff cm b.allocations).mp hcc
  · rintro ⟨hparse, hallocs, h1, h2, h3, h4, h5, h6, h7⟩
    obtain ⟨cm, hcm⟩ := (parseClasses_ok_iff b.raw_classes b.classes).mpr hparse
    have hck : checkAllocs cm b.allocations = .ok () :=
      (checkAllocs_ok_iff cm b.allocations).mpr (hallocs cm hcm)
    obtain ⟨g, hgf⟩ := (buildFields_ok_iff b cm).mpr ⟨h1, h2, h3, h4, h5, h6, h7⟩
    exact ⟨g, by rw [build_eq_fields b cm hcm hck]; exact hgf⟩
  · intro e he g hok
    rw [he] at hok
    exact Except.noConfusion hok
  · intro cm hcm p hp hnone
    cases hcc : checkAllocs cm b.allocations with
    | ok u =>
      cases u
      obtain ⟨hh, hhh, -⟩ := (checkAllocs_ok_iff cm b.allocations).mp hcc p hp
      rw [hnone] at hhh
      exact Option.noConfusion hhh
    | error e =>
      have hb := build_eq_check_error b cm e hcm hcc
      cases checkAllocs_error_shape cm b.allocations e hcc with
      | inl h => exact Or.inl (h ▸ hb)
      | inr h =>
        obtain ⟨a, hh, he⟩ := h
        exact Or.inr ⟨a, hh, he ▸ hb⟩
  · intro cm hcm hck
    have hb := build_eq_fields b cm hcm hck
    refine ⟨?_, ?_, ?_, ?_, ?_, ?_, ?_⟩
    · intro hph
      rw [hb]
      unfold buildFields
      rw [hph]
    · intro hp1 hsr
      obtain ⟨ph, hph⟩ := Option.isSome_iff_exists.mp hp1
      rw [hb]
      unfold buildFields
      rw [hph, hsr]
    · intro hp1 hp2 hnr
      obtain ⟨ph, hph⟩ := Option.isSome_iff_exists.mp hp1
      obtain ⟨sr, hsr⟩ := Option.isSome_iff_exists.mp hp2
      rw [hb]
      unfold buildFields
      rw [hph, hsr, hnr]
    · intro hp1 hp2 hp3 hts
      obtain ⟨ph, hph⟩ := Option.isSome_iff_exists.mp hp1
      obtain ⟨sr, hsr⟩ := Option.isSome_iff_exists.mp hp2
      obtain ⟨nr, hnr⟩ := Option.isSome_iff_exists.mp hp3
      rw [hb]
      unfold buildFields
      rw [hph, hsr, hnr, hts]
    · intro hp1 hp2 hp3 hp4 hsa
      obtain ⟨ph, hph⟩ := Option.isSome_iff_exists.mp hp1
      obtain ⟨sr, hsr⟩ := Option.isSome_iff_exists.mp hp2
      obtain ⟨nr, hnr⟩ := Option.isSome_iff_exists.mp hp3
      obtain ⟨ts, hts⟩ := Option.isSome_iff_exists.mp hp4
      rw [hb]
      unfold buildFields
      rw [hph, hsr, hnr, hts, hsa]
    · intro hp1 hp2 hp3 hp4 hp5 hft
      obtain ⟨ph, hph⟩ := Option.isSome_iff_exists.mp hp1
      obtain ⟨sr, hsr⟩ := Option.isSome_iff_exists.mp hp2
      obtain ⟨nr, hnr⟩ := Option.isSome_iff_exists.mp hp3
      obtain ⟨ts, hts⟩ := Option.isSome_iff_exists.mp hp4
      obtain ⟨sa, hsa⟩ := Option.isSome_iff_exists.mp hp5
      rw [hb]
      unfold buildFields
      rw [hph, hsr, hnr, hts, hsa, hft]
    · intro hp1 hp2 hp3 hp4 hp5 hp6 hgp
      obtain ⟨ph, hph⟩ := Option.isSome_iff_exists.mp hp1
      obtain ⟨sr, hsr⟩ := Option.isSome_iff_exists.mp hp2
      obtain ⟨nr, hnr⟩ := Option.isSome_iff_exists.mp hp3
      obtain ⟨ts, hts⟩ := Option.isSome_iff_exists.mp hp4
      obtain ⟨sa, hsa⟩ := Option.isSome_iff_exists.mp hp5
      obtain ⟨ft, hft⟩ := Option.isSome_iff_exists.mp hp6
      rw [hb]
      unfold buildFields
      rw [hph, hsr, hnr, hts, hsa, hft, hgp]

/-- Witness for C5 at a concrete complete builder: its one raw class parses to
hash 7, its one allocation references hash 7, every field is set, and build
succeeds. -/
theorem build_ok_characterization_witness :
    ∃ g, Builder.build builderComplete = .ok g := by
  apply (build_ok_characterization builderComplete).1.mpr
  refine ⟨by decide, ?_, by decide, by decide, by decide, by decide, by decide,
    by decide, by decide⟩
  intro cm hcm
  have h2 : Except.ok ([(7, 1)] : ClassMap) = Except.ok cm := hcm
  injection h2 with he
  subst he
  intro p hp
  simp [builderComplete] at hp
  subst hp
  exact ⟨7, rfl, by decide⟩

/-- Counterexample for C4 as stated: this builder contains an allocation
(address 2, class hash 9) whose class hash is absent from the (empty) class set
after parsing, yet `build` returns `MissingClassHash` — raised for the earlier
allocation at address 1 that carries no class hash — and not `UnknownClassHash`
for any address and hash. -/
theorem build_missing_preempts_unknown :
    Builder.build builderMissingThenUnknown = .error .missingClassHash ∧
      parseClasses builderMissingThenUnknown.classes
        builderMissingThenUnknown.raw_classes = .ok [] ∧
      (2, ⟨some 9⟩) ∈ builderMissingThenUnknown.allocations ∧
      containsClass [] 9 = false ∧
      ∀ a hh, Builder.build builderMissingThenUnknown ≠
        .error (.unknownClassHash a hh) := by
  refine ⟨by decide, by decide, by decide, by decide, ?_⟩
  intro a hh h
  have h1 : Builder.build builderMissingThenUnknown = .error .missingClassHash := by decide
  rw [h1] at h
  injection h with h2
  exact GenesisBuilderError.noConfusion h2

/-- Claim C4 (amended): for every builder whose raw class artifacts all parse and
whose allocations all carry a class hash, if some allocation's class hash is
absent from the class set after parsing, then `build` returns
`GenesisBuilderError::UnknownClassHash` identifying one such contract address and
class hash, and produces no `Genesis`. -/
theorem build_unknown_class_hash (b : Builder) (cm : ClassMap)
    (hp : parseClasses b.classes b.raw_classes = .ok cm)
    (hall : ∀ p ∈ b.allocations, (p.2).class_hash.isSome = true)
    (hbad : ∃ p ∈ b.allocations, ∃ hh, (p.2).class_hash = some hh ∧
      containsClass cm hh = false) :
    ∃ a hh, (∃ al, (a, al) ∈ b.allocations ∧ al.class_hash = some hh) ∧
      containsClass cm hh = false ∧ b.build = .error (.unknownClassHash a hh) := by
  obtain ⟨a, hh, prov, hcf, hck⟩ := checkAllocs_unknown cm b.allocations hall hbad
  exact ⟨a, hh, prov, hcf, build_eq_check_error b cm _ hp hck⟩

/-- Witness for the amended C4 at a concrete builder whose single allocation
(address 2) references the absent class hash 9. -/
theorem build_unknown_class_hash_witness :
    ∃ a hh, (∃ al, (a, al) ∈ builderUnknownOnly.allocations ∧
        al.class_hash = some hh) ∧
      containsClass [] hh = false ∧
      Builder.build builderUnknownOnly = .error (.unknownClassHash a hh) :=
  build_unknown_class_hash builderUnknownOnly [] (by decide) (by decide)
    ⟨(2, ⟨some 9⟩), by decide, 9, rfl, rfl⟩

/-- Claim C9: converting a `Genesis` into a builder and building again returns
exactly the original `Genesis`, provided every allocation's class hash is present
in the genesis class set. -/
theorem fromGenesis_build_roundtrip (g : Genesis)
    (h : ∀ p ∈ g.allocations, ∃ hh, (p.2).class_hash = some hh ∧
      containsClass g.classes hh = true) :
    (Builder.fromGenesis g).build = .ok g := by
  have hp : parseClasses (Builder.fromGenesis g).classes
      (Builder.fromGenesis g).raw_classes = .ok g.classes := rfl
  have hc : checkAllocs g.classes (Builder.fromGenesis g).allocations = .ok () := by
    apply (checkAllocs_ok_iff g.classes _).mpr
    intro p hp2
    exact h p hp2
  rw [build_eq_fields _ _ hp hc]
  rfl

/-- Witness for C9 at a concrete genesis whose single allocation references class
hash 7, present in its class map. -/
theorem fromGenesis_build_roundtrip_witness :
    (Builder.fromGenesis genesisExample).build = .ok genesisExample := by
  apply fromGenesis_build_roundtrip
  intro p hp
  simp [genesisExample] at hp
  subst hp
  exact ⟨7, rfl, by decide⟩

/-- Claim C10: duplicate class hashes are never an error and the first definition
wins: `entry(hash).or_insert(class)` leaves the map unchanged when the hash is
already present, so parsing any all-parseable artifact list succeeds and never
overwrites an existing binding, whether it came from an earlier artifact or from
an existing genesis. -/
theorem parseClasses_first_wins (m : ClassMap) (rcs : List RawClass)
    (hok : ∀ rc ∈ rcs, Except.isOk rc = true) :
    (∀ hh c, containsClass m hh = true → orInsert m hh c = m) ∧
      ∃ m2, parseClasses m rcs = .ok m2 ∧
        ∀ hh c, lookupClass m hh = some c → lookupClass m2 hh = some c := by
  refine ⟨fun hh c hcon => by unfold orInsert; rw [if_pos hcon], ?_⟩
  exact parseClasses_preserves rcs m hok

/-- Witness for C10: starting from a map binding hash 1 to class 5, parsing two
artifacts — a duplicate of hash 1 with a different class, then a fresh hash 2 —
succeeds and the original binding of hash 1 survives. -/
theorem parseClasses_first_wins_witness :
    ∃ m2, parseClasses [(1, 5)] [Except.ok (1, 6), Except.ok (2, 7)] = .ok m2 ∧
      lookupClass m2 1 = some 5 := by
  obtain ⟨-, m2, hm2, hpres⟩ :=
    parseClasses_first_wins [(1, 5)] [Except.ok (1, 6), Except.ok (2, 7)] (by decide)
  exact ⟨m2, hm2, hpres 1 5 (by decide)⟩

end KatanaGenesis

namespace KatanaTracker

theorem commitBlock_chain (l : List Nat) (b : Nat) (l2 : List Nat)
    (hc : List.Chain' (· < ·) l) (h : commitBlock l b = some l2) :
    List.Chain' (· < ·) l2 := by
  unfold commitBlock at h
  split at h
  · injection h with h2
    subst h2
    exact List.chain'_singleton b
  · rename_i last hlast
    split at h
    · injection h with h2
      subst h2
      exact hc
    · split at h
      · rename_i hne hlt
        injection h with h2
        subst h2
        apply List.Chain'.append hc (List.chain'_singleton b)
        intro x hx y hy
        simp at hy
        subst hy
        rw [hlast] at hx
        simp at hx
        subst hx
        exact hlt
      · exact Option.noConfusion h

theorem commitBlock_idem (l : List Nat) (b : Nat) (h : l.getLast? = some b) :
    commitBlock l b = some l := by
  simp [commitBlock, h]

theorem commitSeqFrom_chain :
    ∀ (bs l l2 : List Nat), List.Chain' (· < ·) l →
      commitSeqFrom l bs = some l2 → List.Chain' (· < ·) l2 := by
  intro bs
  induction bs with
  | nil =>
    intro l l2 hc h
    unfold commitSeqFrom at h
    injection h with h2
    subst h2
    exact hc
  | cons b rest ih =>
    intro l l2 hc h
    unfold commitSeqFrom at h
    cases hcb : commitBlock l b with
    | none => rw [hcb] at h; exact Option.noConfusion h
    | some l3 =>
      rw [hcb] at h
      exact ih l3 l2 (commitBlock_chain l b l3 hc hcb) h

/-- Claim C8: after any sequence of commits that completes without a hard fault,
the slot's block list is strictly increasing and duplicate-free, and committing a
block equal to the list's current last element returns the list unchanged. -/
theorem commitSeq_invariant (bs : List Nat) (l : List Nat)
    (h : commitSeq bs = some l) :
    List.Chain' (· < ·) l ∧ l.Nodup ∧
      ∀ b, l.getLast? = some b → commitBlock l b = some l := by
  have hc : List.Chain' (· < ·) l := commitSeqFrom_chain bs [] l List.chain'_nil h
  exact ⟨hc, (List.chain'_iff_pairwise.mp hc).imp Nat.ne_of_lt,
    fun b hb => commitBlock_idem l b hb⟩

/-- Witness for C8: committing the block sequence 1, 3, 3, 5 — with the
idempotent re-commit of 3 — succeeds and yields the strictly increasing,
duplicate-free list `[1, 3, 5]`, and re-committing 5 leaves it unchanged. -/
theorem commitSeq_invariant_witness :
    List.Chain' (· < ·) [1, 3, 5] ∧ ([1, 3, 5] : List Nat).Nodup ∧
      commitBlock [1, 3, 5] 5 = some [1, 3, 5] := by
  obtain ⟨h1, h2, h3⟩ := commitSeq_invariant [1, 3, 3, 5] [1, 3, 5] (by decide)
  exact ⟨h1, h2, h3 5 (by decide)⟩

end KatanaTracker

namespace KatanaDb

/-- Claim C6: the v0 schema declares exactly four tables, named `NonceChanges`,
`ContractClassChanges`, `StorageChangeSet` and `StorageChanges`, and no two of
them share a name. -/
theorem v0_table_names :
    v0Tables.map TableDecl.name =
      ["NonceChanges", "ContractClassChanges", "StorageChangeSet", "StorageChanges"] ∧
      (v0Tables.map TableDecl.name).Nodup ∧ v0Tables.length = 4 := by
  refine ⟨rfl, ?_, rfl⟩
  decide

end KatanaDb
